import Mathlib

/-!
Verification of the PaperLens agent-orchestration pipeline.

Shallow embedding of the server-side pipeline (planner / evaluator /
segmenter / executor / Napkin client / downloader / analyze route) and
the extension background cache.  JavaScript strings are embedded as
`List Char`; `text.substring(0, n)` becomes `List.take n`,
`text.toLowerCase()` becomes a character-wise `Char.toLower`,
`text.trim()` strips leading and trailing whitespace,
`text.split(regexWs)` is reproduced including the empty leading and
trailing fields JavaScript produces, and `hay.includes(needle)` is a
substring scan.  Asynchronous judgment and generation calls are
parameters of the embedded functions (the value the call would have
produced), and thrown exceptions become `Except` errors.
-/

set_option maxRecDepth 20000

namespace PaperLens

/-! ## JavaScript string primitives -/

/-- ASCII whitespace, the characters relevant to the repository's inputs
(JavaScript regexWs also matches rarer Unicode spaces). -/
def isWsChar (c : Char) : Bool :=
  c = ' ' || c = '\t' || c = '\n' || c = '\r'

/-- `text.trim()`. -/
def trimWs (l : List Char) : List Char :=
  ((l.dropWhile isWsChar).reverse.dropWhile isWsChar).reverse

/-- `text.toLowerCase()`, character-wise. -/
def toLowerL (l : List Char) : List Char :=
  l.map Char.toLower

/-- `hay.includes(needle)`. -/
def hasSubstr (hay needle : List Char) : Bool :=
  match hay with
  | [] => needle.isEmpty
  | _ :: t => needle.isPrefixOf hay || hasSubstr t needle

/-- Worker for `jsSplitWs`; `inWs` records whether the previous character
was part of a whitespace run, `acc` holds the current field reversed. -/
def splitWsGo (inWs : Bool) (acc : List Char) : List Char → List (List Char)
  | [] => [acc.reverse]
  | c :: rest =>
    if isWsChar c then
      if inWs then splitWsGo true [] rest
      else acc.reverse :: splitWsGo true [] rest
    else splitWsGo false (c :: acc) rest

/-- `text.split(regexWs)`: fields separated by maximal whitespace runs,
with an empty leading field when the text starts with whitespace and an
empty trailing field when it ends with whitespace, exactly as in
JavaScript. -/
def jsSplitWs (l : List Char) : List (List Char) :=
  splitWsGo false [] l

/-- `text.split(regexWs).filter(w => w.length > 0).length`, the word count
used throughout the agents. -/
def wordCountJs (l : List Char) : Nat :=
  ((jsSplitWs l).filter (fun w => 0 < w.length)).length

/-- `words.join(sep)` for `sep = " "`. -/
def joinSpace : List (List Char) → List Char
  | [] => []
  | [w] => w
  | w :: ws => w ++ ' ' :: joinSpace ws

/-- JavaScript `a || b` on two optional strings where the empty string is
falsy; the result defaults to the empty string. -/
def jsOrText (a b : Option (List Char)) : List Char :=
  match a with
  | some s => if s.isEmpty then (match b with
      | some t => t
      | none => []) else s
  | none => match b with
    | some t => t
    | none => []

/-- JavaScript `a || b` on two optional strings with a mandatory default. -/
def jsOrStr (a b : Option String) (dflt : String) : String :=
  match a with
  | some s => if s = "" then (match b with
      | some t => if t = "" then dflt else t
      | none => dflt) else s
  | none => match b with
    | some t => if t = "" then dflt else t
    | none => dflt

/-- JavaScript `a || d` on an optional number where `0` is falsy. -/
def jsOrNat (a : Option Nat) (dflt : Nat) : Nat :=
  match a with
  | some n => if n = 0 then dflt else n
  | none => dflt

/-! ## Napkin client: `createVisualRequest` (src/server/napkin/client.js)

Only the local validation logic is embedded; the HTTP POST itself is the
outcome.  `tokenConfigured` models the presence of `NAPKIN_TOKEN`. -/

inductive NapkinError
  | auth
  | emptyContent
  deriving DecidableEq, Repr

/-- The `options` object passed by the executor (only the fields it sets). -/
structure VisualOptions where
  contextBefore : List Char := []
  contextAfter : List Char := []
  deriving DecidableEq, Repr

/-- The request body assembled by `createVisualRequest` (fields relevant
to the claims; `format` is the constant "svg" default). -/
structure SubmitBody where
  content : List Char
  contextBefore : Option (List Char)
  contextAfter : Option (List Char)
  deriving DecidableEq, Repr

/-- src/server/napkin/client.js lines 43-66: throw `AuthError` without a
token; truncate the text to 2000 characters; throw the empty-content
error when the truncated text trims to nothing; otherwise build the body
from the trimmed truncated text. -/
def createVisualRequest (tokenConfigured : Bool) (text : List Char)
    (options : VisualOptions) : Except NapkinError SubmitBody :=
  if !tokenConfigured then .error .auth
  else
    let truncatedText := text.take 2000
    if (trimWs truncatedText).isEmpty then .error .emptyContent
    else
      .ok { content := trimWs truncatedText
            contextBefore :=
              if (trimWs options.contextBefore).isEmpty then none
              else some (trimWs options.contextBefore)
            contextAfter :=
              if (trimWs options.contextAfter).isEmpty then none
              else some (trimWs options.contextAfter) }

/-! ## Downloader: `sanitizeSVG` and `downloadAndServeSVG`
(src/server/napkin/downloader.js)

`sanitizeSVG` applies the global case-insensitive lazy regex that removes
each leftmost span starting with an opening script tag and ending at the
first subsequent closing script tag.  The embedding mirrors the regex
engine: at each position, if the opening tag matches and a closing tag
occurs later, the whole span is removed and scanning resumes after it;
otherwise the character is kept and scanning advances by one.  The
recursion is driven by a character-count fuel so that it stays
structural; `l.length` fuel always suffices because every removal
consumes at least the 7-character opening tag. -/

def scriptOpen : List Char := '<' :: 's' :: 'c' :: 'r' :: 'i' :: 'p' :: 't' :: []

def scriptClose : List Char :=
  '<' :: '/' :: 's' :: 'c' :: 'r' :: 'i' :: 'p' :: 't' :: '>' :: []

/-- Case-insensitive literal match of `pat` (given lowercase) at the head
of `l`, as the regex `i` flag does. -/
def matchesCI (pat l : List Char) : Bool :=
  toLowerL (l.take pat.length) == pat

/-- Find the first closing script tag in `l`; on success return the text
after it (the regex resumes scanning there). -/
def dropThroughClose : List Char → Option (List Char)
  | [] => none
  | c :: rest =>
    if matchesCI scriptClose (c :: rest) then some (rest.drop 8)
    else dropThroughClose rest

def removeScriptsGo : Nat → List Char → List Char
  | _, [] => []
  | 0, l => l
  | fuel + 1, c :: rest =>
    if matchesCI scriptOpen (c :: rest) then
      match dropThroughClose (rest.drop 6) with
      | some suffix => removeScriptsGo fuel suffix
      | none => c :: removeScriptsGo fuel rest
    else c :: removeScriptsGo fuel rest

/-- src/server/napkin/downloader.js lines 54-57. -/
def sanitizeSVG (svg : List Char) : List Char :=
  removeScriptsGo svg.length svg

/-- Downloader cache entry: sanitized artifact plus `Date.now()` stamp. -/
structure CacheEntry where
  svg : List Char
  timestamp : Nat
  deriving DecidableEq, Repr

/-- In-memory cache of the downloader, an insertion-ordered map from file
URL to entry (JavaScript `Map`). -/
def DlCache := List (List Char × CacheEntry)

def CACHE_TTL : Nat := 30 * 60 * 1000

def dlLookup (cache : DlCache) (url : List Char) : Option CacheEntry :=
  match cache with
  | [] => none
  | (k, e) :: rest => if k == url then some e else dlLookup rest url

/-- JavaScript `Map.set`: overwrite in place, else append. -/
def dlSet (cache : DlCache) (url : List Char) (e : CacheEntry) : DlCache :=
  match cache with
  | [] => [(url, e)]
  | (k, e0) :: rest =>
    if k == url then (k, e) :: rest else (k, e0) :: dlSet rest url e

/-- Eviction (downloader.js lines 39-44): when more than 100 entries,
keep the 100 with the largest timestamps (entries sorted by timestamp,
oldest deleted). -/
def dlEvict (cache : DlCache) : DlCache :=
  if 100 < cache.length then
    let sorted := cache.mergeSort (fun a b => a.2.timestamp ≤ b.2.timestamp)
    let toDelete := (sorted.take (cache.length - 100)).map (·.1)
    cache.filter (fun p => !(toDelete.contains p.1))
  else cache

/-- Result of one `downloadAndServeSVG` call: the returned string, the
cache afterwards, and how many network downloads were performed. -/
structure DlResult where
  svg : List Char
  cache : DlCache
  downloads : Nat

/-- src/server/napkin/downloader.js lines 17-47.  `raw` is the value
`downloadVisualFile` would return, `now` is `Date.now()`. -/
def downloadAndServeSVG (raw : List Char) (now : Nat) (cache : DlCache)
    (url : List Char) : DlResult :=
  match dlLookup cache url with
  | some cached =>
    if now - cached.timestamp < CACHE_TTL then
      { svg := cached.svg, cache := cache, downloads := 0 }
    else
      let sanitized := sanitizeSVG raw
      { svg := sanitized
        cache := dlEvict (dlSet cache url ⟨sanitized, now⟩)
        downloads := 1 }
  | none =>
    let sanitized := sanitizeSVG raw
    { svg := sanitized
      cache := dlEvict (dlSet cache url ⟨sanitized, now⟩)
      downloads := 1 }

/-! ## Sanitizer lemmas -/

theorem dropThroughClose_sublist :
    ∀ {l s : List Char}, dropThroughClose l = some s → s.Sublist l := by
  intro l
  induction l with
  | nil => intro s h; simp [dropThroughClose] at h
  | cons c rest ih =>
    intro s h
    by_cases hm : matchesCI scriptClose (c :: rest) = true
    · rw [dropThroughClose, if_pos hm] at h
      cases h
      exact (List.drop_sublist 8 rest).cons c
    · rw [dropThroughClose, if_neg hm] at h
      exact (ih h).cons c

theorem removeScriptsGo_sublist :
    ∀ (fuel : Nat) (l : List Char), (removeScriptsGo fuel l).Sublist l := by
  intro fuel
  induction fuel with
  | zero => intro l; cases l <;> simp [removeScriptsGo]
  | succ n ih =>
    intro l
    cases l with
    | nil => simp [removeScriptsGo]
    | cons c rest =>
      rw [removeScriptsGo]
      by_cases ho : matchesCI scriptOpen (c :: rest) = true
      · rw [if_pos ho]
        cases hd : dropThroughClose (rest.drop 6) with
        | some suffix =>
          have h1 : suffix.Sublist (rest.drop 6) := dropThroughClose_sublist hd
          have h2 : (rest.drop 6).Sublist rest := List.drop_sublist 6 rest
          exact ((ih suffix).trans (h1.trans h2)).cons c
        | none => exact (ih rest).cons₂ c
      · rw [if_neg ho]
        exact (ih rest).cons₂ c

theorem sanitizeSVG_sublist (svg : List Char) : (sanitizeSVG svg).Sublist svg :=
  removeScriptsGo_sublist svg.length svg

/-- C9 counterexample: the artifact returned (and cached) by
`downloadAndServeSVG` can still contain a script element.  An
unterminated opening script tag is returned verbatim, and a split tag
recombines into a complete script element after the matched span is
removed, so the claim that every returned string contains no script
element is false. -/
theorem sanitizeSVG_script_survives :
    (downloadAndServeSVG ("<script>alert(1)".toList) 0 [] ("u".toList)).svg
        = "<script>alert(1)".toList
    ∧ hasSubstr
        (toLowerL ((downloadAndServeSVG ("<script>alert(1)".toList) 0 []
          ("u".toList)).svg)) scriptOpen = true
    ∧ sanitizeSVG ("<scr<script>x</script>ipt>alert(1)</script>".toList)
        = "<script>alert(1)</script>".toList := by
  refine ⟨by decide, by decide, by decide⟩

/-- C9 amended: every artifact string returned (and cached) by
`downloadAndServeSVG` is the fetched SVG with each complete,
non-overlapping script span removed by one left-to-right
case-insensitive lazy pass; sanitization only deletes characters (the
result is a subsequence of the fetched artifact), and what is cached is
exactly the sanitized string.  This does not guarantee absence of script
elements (see the counterexample). -/
theorem sanitizeSVG_removes_closed_spans :
    (∀ raw : List Char, (sanitizeSVG raw).Sublist raw)
    ∧ sanitizeSVG ("<p><script>alert(1)</script></p>".toList)
        = "<p></p>".toList
    ∧ (∀ (raw url : List Char) (now : Nat),
        downloadAndServeSVG raw now [] url =
          ⟨sanitizeSVG raw, [(url, ⟨sanitizeSVG raw, now⟩)], 1⟩) := by
  refine ⟨sanitizeSVG_sublist, by decide, ?_⟩
  intro raw url now
  simp [downloadAndServeSVG, dlLookup, dlSet, dlEvict]

/-- C10 counterexample: a text containing a non-whitespace character can
still raise the empty-content error, because the check runs after the
2000-character truncation — 2000 spaces followed by "a" is a non-empty
input that is rejected as empty.  So the error is not raised if and only
if the supplied text is empty, and not every non-empty input is
submitted. -/
theorem createVisualRequest_rejects_nonempty :
    (trimWs (List.replicate 2000 ' ' ++ ['a'])).isEmpty = false
    ∧ createVisualRequest true (List.replicate 2000 ' ' ++ ['a']) {}
        = .error .emptyContent := by
  constructor
  · decide
  · rfl

/-- C10 amended: with the token configured, `createVisualRequest` raises
the empty-content error if and only if the first 2000 characters of the
supplied text contain no non-whitespace character; whenever that prefix
is non-blank, the trimmed 2000-character truncation is submitted as the
request content. -/
theorem createVisualRequest_empty_iff :
    ∀ (text : List Char) (options : VisualOptions),
      (createVisualRequest true text options = .error .emptyContent
        ↔ (trimWs (text.take 2000)).isEmpty = true)
      ∧ ((trimWs (text.take 2000)).isEmpty = false →
          ∃ body, createVisualRequest true text options = .ok body
            ∧ body.content = trimWs (text.take 2000)) := by
  intro text options
  by_cases h : (trimWs (text.take 2000)).isEmpty = true
  · constructor
    · simp [createVisualRequest, h]
    · intro h2; rw [h] at h2; cases h2
  · constructor
    · simp [createVisualRequest, h]
    · intro _
      refine ⟨{ content := trimWs (text.take 2000),
                contextBefore := if (trimWs options.contextBefore).isEmpty then none
                  else some (trimWs options.contextBefore),
                contextAfter := if (trimWs options.contextAfter).isEmpty then none
                  else some (trimWs options.contextAfter) }, ?_, rfl⟩
      simp [createVisualRequest, h]

/-- C10 witness: the amended theorem applied to a concrete non-blank
text. -/
theorem createVisualRequest_empty_iff_witness :
    ∃ body, createVisualRequest true ("hello world".toList) {} = .ok body
      ∧ body.content = trimWs (("hello world".toList).take 2000) :=
  (createVisualRequest_empty_iff ("hello world".toList) {}).2 (by decide)

/-! ## Evaluator (src/server/agent/evaluator.js) and the v2.1 evaluator
appended in src/server/agent/decider.js

Both functions are embedded.  The judgment call and the subsequent JSON
parsing (including the regex clean-up attempts) are summarised by an
`EvalJudgment` value: `callError` when the judgment call throws,
`unparseable` when no clean-up attempt yields valid JSON, and `parsed`
carrying the four fields of the parsed object (`none` for a missing
field, and for `confidence` also for a non-number value, matching the
`typeof` check).  Confidence values are rationals. -/

/-- Result shape `{worthy, reason, confidence, visualizationPotential}`. -/
structure EvalResult where
  worthy : Bool
  reason : String
  confidence : ℚ
  visualizationPotential : String
  deriving DecidableEq, Repr

inductive EvalJudgment
  | callError
  | unparseable
  | parsed (worthy : Option Bool) (confidence : Option ℚ)
      (reason : Option String) (potential : Option String)
  deriving DecidableEq, Repr

namespace Evaluator

/-- src/server/agent/evaluator.js lines 56-167: empty text and texts
under 30 words are rejected without a judgment call; a parse failure or
a thrown judgment call yields a conservative rejection with confidence
0.5; otherwise the parsed fields are validated with the documented
defaults. -/
def evaluateContent (text : List Char) (j : EvalJudgment) : EvalResult :=
  if (trimWs text).isEmpty then
    ⟨false, "Text content is empty", 1, "none"⟩
  else if wordCountJs text < 30 then
    ⟨false, "Content too short to create meaningful visualization", 0.9, "none"⟩
  else
    match j with
    | .callError => ⟨false, "Evaluation error", 0.5, "unknown"⟩
    | .unparseable => ⟨false, "Unable to evaluate content quality", 0.5, "unknown"⟩
    | .parsed w c r p =>
      let worthy := w == some true
      ⟨worthy,
       r.getD (if worthy then "Content appears visualizable"
               else "Content does not meet visualization criteria"),
       c.getD (if worthy then 0.7 else 0.6),
       p.getD (if worthy then "medium" else "low")⟩

end Evaluator

/-- The three regex signals of the v2.1 evaluator's quick-approve path
(decider.js lines 208-210): structure keywords, capitalized multi-word
terms or acronyms, and list markers.  They are inputs of the embedding;
every theorem below quantifies over all their values. -/
structure StructSignals where
  hasStructure : Bool
  hasConcepts : Bool
  hasLists : Bool
  deriving DecidableEq, Repr

namespace Decider

/-- The v2.1 `evaluateContent` appended in src/server/agent/decider.js
lines 183-296: quick rejection under 15 words; quick approval at 60+
words with a structural signal; worthy=true defaults on parse failure
and on a thrown call; and the override that converts a rejection of an
80+-word unit with confidence below 0.75 into an approval. -/
def evaluateContent (text : List Char) (signals : StructSignals)
    (j : EvalJudgment) : EvalResult :=
  if (trimWs text).isEmpty then
    ⟨false, "Text content is empty", 1, "none"⟩
  else if wordCountJs text < 15 then
    ⟨false, "Content too short to create meaningful visualization", 0.9, "none"⟩
  else if 60 ≤ wordCountJs text
      && (signals.hasStructure || signals.hasConcepts || signals.hasLists) then
    ⟨true, "Content has sufficient structure and concepts for visualization",
     0.8, "medium"⟩
  else
    match j with
    | .callError =>
      ⟨true, "Evaluation error; attempting visualization anyway", 0.5, "medium"⟩
    | .unparseable =>
      ⟨true, "Could not evaluate precisely; attempting visualization", 0.5, "medium"⟩
    | .parsed w c r p =>
      let worthy := w == some true
      let confidence := c.getD (if worthy then 0.7 else 0.6)
      if !worthy && 80 ≤ wordCountJs text && confidence < 0.75 then
        ⟨true, "Content is substantial enough to attempt visualization",
         0.6, "medium"⟩
      else
        ⟨worthy,
         r.getD (if worthy then "Content appears visualizable"
                 else "Content not suitable"),
         confidence,
         p.getD (if worthy then "medium" else "low")⟩

end Decider

/-! ## Word-count helper lemmas -/

theorem trimWs_eq_nil_all_ws {l : List Char} (h : trimWs l = []) :
    ∀ a ∈ l, isWsChar a = true := by
  unfold trimWs at h
  rw [List.reverse_eq_nil_iff, List.dropWhile_eq_nil_iff] at h
  have h2 : ∀ a ∈ l.dropWhile isWsChar, isWsChar a = true := by
    intro a ha
    exact h a (by simpa using ha)
  intro a ha
  rw [← List.takeWhile_append_dropWhile (p := isWsChar) (l := l),
    List.mem_append] at ha
  rcases ha with ha | ha
  · exact List.mem_takeWhile_imp ha
  · exact h2 a ha

/-- Every character of a field produced by `splitWsGo` comes from the
accumulator or is a non-whitespace character of the input. -/
theorem splitWsGo_mem_chars :
    ∀ (l : List Char) (inWs : Bool) (acc w : List Char) (c : Char),
      w ∈ splitWsGo inWs acc l → c ∈ w →
      c ∈ acc ∨ (c ∈ l ∧ isWsChar c = false) := by
  intro l
  induction l with
  | nil =>
    intro inWs acc w c hw hc
    simp [splitWsGo] at hw
    subst hw
    exact Or.inl (by simpa using hc)
  | cons a rest ih =>
    intro inWs acc w c hw hc
    by_cases ha : isWsChar a = true
    · cases inWs with
      | true =>
        rw [splitWsGo, if_pos ha, if_pos rfl] at hw
        rcases ih true [] w c hw hc with h | ⟨h1, h2⟩
        · simp at h
        · exact Or.inr ⟨List.mem_cons_of_mem a h1, h2⟩
      | false =>
        rw [splitWsGo, if_pos ha] at hw
        simp only [Bool.false_eq_true, if_false, List.mem_cons] at hw
        rcases hw with hw | hw
        · subst hw
          exact Or.inl (by simpa using hc)
        · rcases ih true [] w c hw hc with h | ⟨h1, h2⟩
          · simp at h
          · exact Or.inr ⟨List.mem_cons_of_mem a h1, h2⟩
    · rw [splitWsGo, if_neg ha] at hw
      rcases ih false (a :: acc) w c hw hc with h | ⟨h1, h2⟩
      · rcases List.mem_cons.mp h with h | h
        · subst h
          exact Or.inr ⟨List.mem_cons_self c rest, by simpa using ha⟩
        · exact Or.inl h
      · exact Or.inr ⟨List.mem_cons_of_mem a h1, h2⟩

/-- A positive word count exhibits a non-whitespace character. -/
theorem exists_nonws_of_wordCount_pos {l : List Char}
    (h : 0 < wordCountJs l) : ∃ c ∈ l, isWsChar c = false := by
  unfold wordCountJs at h
  rw [List.length_pos_iff_exists_mem] at h
  obtain ⟨w, hw⟩ := h
  rw [List.mem_filter] at hw
  obtain ⟨hw1, hw2⟩ := hw
  have hne : w ≠ [] := by
    intro hnil
    rw [hnil] at hw2
    simp at hw2
  obtain ⟨c, hc⟩ := List.exists_mem_of_ne_nil w hne
  rcases splitWsGo_mem_chars l false [] w c hw1 hc with h | ⟨h1, h2⟩
  · simp at h
  · exact ⟨c, h1, h2⟩

/-- A text with at least one word does not trim to the empty string. -/
theorem trimWs_not_empty_of_wordCount_pos {l : List Char}
    (h : 0 < wordCountJs l) : (trimWs l).isEmpty = false := by
  obtain ⟨c, hc1, hc2⟩ := exists_nonws_of_wordCount_pos h
  by_cases hnil : trimWs l = []
  · rw [trimWs_eq_nil_all_ws hnil c hc1] at hc2
    cases hc2
  · simpa [List.isEmpty_iff] using hnil

/-- C3 counterexample: for a 30-word text (at the evaluator's minimum
word count), the `evaluateContent` in evaluator.js — the module the
executor imports — returns worthy=false both when the judgment output is
unparseable and when the judgment call throws, contradicting the claimed
worthy=true default. -/
theorem evaluator_rejects_on_failure :
    30 ≤ wordCountJs (joinSpace (List.replicate 30 ['w']))
    ∧ (Evaluator.evaluateContent (joinSpace (List.replicate 30 ['w']))
        .unparseable).worthy = false
    ∧ (Evaluator.evaluateContent (joinSpace (List.replicate 30 ['w']))
        .callError).worthy = false := by
  refine ⟨by decide, by decide, by decide⟩

/-- C3 amended: on a judgment-call error or unparseable output,
evaluator.js's `evaluateContent` rejects the unit (worthy=false,
confidence 0.5); the worthy=true, medium-potential default on failure is
implemented only by the v2.1 `evaluateContent` in decider.js, which the
executor does not import. -/
theorem evaluateContent_failure_defaults :
    ∀ (text : List Char) (signals : StructSignals),
      (30 ≤ wordCountJs text →
        Evaluator.evaluateContent text .unparseable
          = ⟨false, "Unable to evaluate content quality", 0.5, "unknown"⟩
        ∧ Evaluator.evaluateContent text .callError
          = ⟨false, "Evaluation error", 0.5, "unknown"⟩)
      ∧ (15 ≤ wordCountJs text →
        (Decider.evaluateContent text signals .unparseable).worthy = true
        ∧ (Decider.evaluateContent text signals .unparseable).visualizationPotential
            = "medium"
        ∧ (Decider.evaluateContent text signals .callError).worthy = true
        ∧ (Decider.evaluateContent text signals .callError).visualizationPotential
            = "medium") := by
  intro text signals
  constructor
  · intro h30
    have hne := trimWs_not_empty_of_wordCount_pos (l := text) (by omega)
    have hlt : ¬(wordCountJs text < 30) := by omega
    constructor <;> simp [Evaluator.evaluateContent, hne, hlt]
  · intro h15
    have hne := trimWs_not_empty_of_wordCount_pos (l := text) (by omega)
    have hlt : ¬(wordCountJs text < 15) := by omega
    by_cases hq : (decide (60 ≤ wordCountJs text)
        && (signals.hasStructure || signals.hasConcepts || signals.hasLists)) = true
    · refine ⟨?_, ?_, ?_, ?_⟩ <;> simp [Decider.evaluateContent, hne, hlt, hq]
    · refine ⟨?_, ?_, ?_, ?_⟩ <;> simp [Decider.evaluateContent, hne, hlt, hq]

/-- C3 witness: the amended theorem at a concrete 31-word text. -/
theorem evaluateContent_failure_defaults_witness :
    Evaluator.evaluateContent (joinSpace (List.replicate 31 ['x'])) .unparseable
      = ⟨false, "Unable to evaluate content quality", 0.5, "unknown"⟩
    ∧ Evaluator.evaluateContent (joinSpace (List.replicate 31 ['x'])) .callError
      = ⟨false, "Evaluation error", 0.5, "unknown"⟩ :=
  (evaluateContent_failure_defaults (joinSpace (List.replicate 31 ['x']))
    ⟨false, false, false⟩).1 (by decide)

/-- C5 counterexample: an 80-word unit rejected by the judgment with
reported confidence 0.5 (below the 0.75 trust threshold) is returned
with worthy=false by evaluator.js's `evaluateContent` — that function
has no override rule, so the claim is false for the evaluator the
executor uses. -/
theorem evaluator_no_override :
    80 ≤ wordCountJs (joinSpace (List.replicate 80 ['w']))
    ∧ (0.5 : ℚ) < 0.75
    ∧ Evaluator.evaluateContent (joinSpace (List.replicate 80 ['w']))
        (.parsed (some false) (some 0.5) none none)
      = ⟨false, "Content does not meet visualization criteria", 0.5, "low"⟩ := by
  refine ⟨by decide, by norm_num, by rfl⟩

/-- C5 amended: the override holds for the v2.1 `evaluateContent` in
decider.js: for any text of at least 80 words, whenever the parsed
judgment's (defaulted) confidence is below 0.75 the returned verdict is
worthy=true, whatever the judged worthiness and the quick-path signals.
The evaluator.js `evaluateContent` used by the executor has no such
override (see the counterexample). -/
theorem decider_override_low_confidence :
    ∀ (text : List Char) (signals : StructSignals) (w : Option Bool)
      (c : Option ℚ) (r p : Option String),
      80 ≤ wordCountJs text →
      c.getD (if w == some true then 0.7 else 0.6) < 0.75 →
      (Decider.evaluateContent text signals (.parsed w c r p)).worthy = true := by
  intro text signals w c r p h80 hconf
  have hne := trimWs_not_empty_of_wordCount_pos (l := text) (by omega)
  have hlt : ¬(wordCountJs text < 15) := by omega
  have h80d : decide (80 ≤ wordCountJs text) = true := by simpa using h80
  by_cases hq : (decide (60 ≤ wordCountJs text)
      && (signals.hasStructure || signals.hasConcepts || signals.hasLists)) = true
  · simp [Decider.evaluateContent, hne, hlt, hq]
  · by_cases hw : (w == some true) = true
    · simp [Decider.evaluateContent, hne, hlt, hq, hw]
    · have hc2 : c.getD 0.6 < 0.75 := by simpa [hw] using hconf
      simp [Decider.evaluateContent, hne, hlt, hq, hw, h80, hc2]

/-- C5 witness: the amended theorem at a concrete 81-word text with a
rejecting judgment of confidence 0.5. -/
theorem decider_override_low_confidence_witness :
    (Decider.evaluateContent (joinSpace (List.replicate 81 ['y']))
      ⟨false, false, false⟩
      (.parsed (some false) (some 0.5) none none)).worthy = true :=
  decider_override_low_confidence _ _ _ _ _ _ (by decide) (by norm_num)

/-! ## Segmenter (src/server/agent/segmenter.js)

The judgment call plus `JSON.parse` are summarised as `Option SegJson`:
`none` when the call throws or the output is not valid JSON (both are
re-thrown by the segmenter's catch block), `some` carrying the parsed
value.  A parsed value is either a direct array of segment objects or an
object whose fields are arrays of segment objects (the key-search loop
of lines 128-136 only ever selects array-valued fields, so non-array
field values, which it skips, are not represented). -/

/-- One segment object proposed by the judgment, with every field the
enrichment reads; `none` means the field is absent. -/
structure RawSeg where
  id : Option String := none
  title : Option String := none
  heading : Option String := none
  text : Option (List Char) := none
  content : Option (List Char) := none
  visualizationType : Option String := none
  vtype : Option String := none
  priority : Option Nat := none
  wordCount : Option Nat := none
  deriving DecidableEq, Repr

inductive SegJson
  | arr (segs : List RawSeg)
  | obj (fields : List (String × List RawSeg))
  deriving DecidableEq, Repr

def lookupField (fields : List (String × List RawSeg)) (key : String) :
    Option (List RawSeg) :=
  match fields with
  | [] => none
  | (k, v) :: rest => if k = key then some v else lookupField rest key

/-- segmenter.js lines 124-136: `parsed.segments || parsed.segment || []`
(a present array field is truthy even when empty), then, when the result
is empty, the first array-valued field in key order. -/
def extractSegs : SegJson → List RawSeg
  | .arr segs => segs
  | .obj fields =>
    let s0 := match lookupField fields "segments" with
      | some v => v
      | none => match lookupField fields "segment" with
        | some v => v
        | none => []
    if s0.isEmpty then
      match fields with
      | [] => []
      | (_, v) :: _ => v
    else s0

/-- The enriched segment record returned by `segmentContent`. -/
structure Segment where
  id : String
  title : String
  text : List Char
  visualizationType : String
  priority : Nat
  wordCount : Nat
  deriving DecidableEq, Repr

/-- segmenter.js lines 141-178: the text-selection part of the
enrichment.  `total` is the count of proposed segments, `i` the index.
Step 1 keeps the proposal only when its first 50 lowercased characters
occur in the (lowercased) input; step 2 re-extracts a word window of the
input; step 3 falls back to the first 500 characters of the input. -/
def enrichText (text : List Char) (total i : Nat) (s : RawSeg) : List Char :=
  let t0 := jsOrText s.text s.content
  let t1 :=
    if t0 ≠ [] ∧ 50 ≤ (trimWs t0).length then
      if hasSubstr (toLowerL text) ((toLowerL t0).take 50) then t0 else []
    else t0
  let t2 :=
    if t1 = [] ∨ (trimWs t1).length < 50 then
      let words := jsSplitWs text
      let segmentSize := min 400 (words.length / total)
      joinSpace ((words.drop (i * segmentSize)).take segmentSize)
    else t1
  if t2 = [] ∨ (trimWs t2).length < 50 then text.take (min 500 text.length)
  else t2

/-- segmenter.js lines 141-189: full enrichment of one proposed segment
(defaults for id, title, type, priority and word count, and the final
`trim()` of the selected text). -/
def enrichSeg (text : List Char) (total i : Nat) (s : RawSeg) : Segment :=
  let finalText := enrichText text total i s
  { id := jsOrStr s.id none ("segment-" ++ toString (i + 1))
    title := jsOrStr s.title s.heading ("Segment " ++ toString (i + 1))
    text := trimWs finalText
    visualizationType := jsOrStr s.visualizationType s.vtype "other"
    priority := jsOrNat s.priority (if i < 2 then 1 else 2)
    wordCount := jsOrNat s.wordCount (wordCountJs finalText) }

inductive SegError
  | noApiKey
  | emptyText
  | judgmentFailed
  deriving DecidableEq, Repr

/-- segmenter.js lines 71-215: `segmentContent(text, context)`.
`apiKeyConfigured` models `OPENAI_API_KEY`; `judgment` is the judgment
call plus JSON parse (`none` re-thrown as the
"Failed to segment content" error by the catch at lines 211-214); an
empty enrichment result yields the single fallback segment covering the
first 2000 characters (lines 196-208). -/
def segmentContent (apiKeyConfigured : Bool) (text : List Char)
    (context : String) (judgment : Option SegJson) :
    Except SegError (List Segment) :=
  if !apiKeyConfigured then .error .noApiKey
  else if (trimWs text).isEmpty then .error .emptyText
  else
    match judgment with
    | none => .error .judgmentFailed
    | some j =>
      let segs := extractSegs j
      let enriched := segs.mapIdx (fun i s => enrichSeg text segs.length i s)
      if enriched.isEmpty then
        .ok [{ id := "segment-1"
               title := jsOrStr (some context) none "Content Analysis"
               text := text.take 2000
               visualizationType := "other"
               priority := 1
               wordCount := min (wordCountJs text) 2000 }]
      else .ok enriched

/-! ## Segmenter lemmas and claim theorems -/

theorem mem_trimWs {c : Char} {l : List Char} (h : c ∈ trimWs l) : c ∈ l := by
  unfold trimWs at h
  rw [List.mem_reverse] at h
  have h2 := (List.dropWhile_sublist (l := (l.dropWhile isWsChar).reverse)
    isWsChar).subset h
  rw [List.mem_reverse] at h2
  exact (List.dropWhile_sublist (l := l) isWsChar).subset h2

theorem mem_joinSpace {c : Char} :
    ∀ {ws : List (List Char)}, c ∈ joinSpace ws → c = ' ' ∨ ∃ w ∈ ws, c ∈ w := by
  intro ws
  induction ws with
  | nil => intro h; simp [joinSpace] at h
  | cons w rest ih =>
    intro h
    cases rest with
    | nil =>
      exact Or.inr ⟨w, by simp, by simpa [joinSpace] using h⟩
    | cons w2 rest2 =>
      have hj : joinSpace (w :: w2 :: rest2) = w ++ ' ' :: joinSpace (w2 :: rest2) :=
        rfl
      rw [hj, List.mem_append, List.mem_cons] at h
      rcases h with h | h | h
      · exact Or.inr ⟨w, by simp, h⟩
      · exact Or.inl h
      · rcases ih h with h | ⟨w3, h1, h2⟩
        · exact Or.inl h
        · exact Or.inr ⟨w3, List.mem_cons_of_mem _ h1, h2⟩

/-- The derivability property the claim asserts of an emitted segment's
own text: its leading 50 characters occur (case-insensitively) in the
input, or it is a word-window re-extraction, or a leading-prefix
fallback. -/
def claimDerived (text t : List Char) : Prop :=
  hasSubstr (toLowerL text) ((toLowerL t).take 50) = true
  ∨ (∃ a b, t = trimWs (joinSpace (((jsSplitWs text).drop a).take b)))
  ∨ (∃ n, t = text.take n ∨ t = trimWs (text.take n))

/-- What the code actually guarantees: the emitted text is the trim of a
proposal whose own (pre-trim) leading 50 characters occur in the input,
or a word-window re-extraction, or a leading-prefix fallback. -/
def derivedFrom (text t : List Char) : Prop :=
  (∃ proposal : List Char, t = trimWs proposal
      ∧ hasSubstr (toLowerL text) ((toLowerL proposal).take 50) = true
      ∧ 50 ≤ (trimWs proposal).length)
  ∨ (∃ a b, t = trimWs (joinSpace (((jsSplitWs text).drop a).take b)))
  ∨ (∃ n, t = text.take n ∨ t = trimWs (text.take n))

theorem enrichSeg_derived (text : List Char) (total i : Nat) (s : RawSeg) :
    derivedFrom text (enrichSeg text total i s).text := by
  have htext : (enrichSeg text total i s).text
      = trimWs (enrichText text total i s) := rfl
  rw [htext]
  unfold enrichText
  dsimp only
  set t0 := jsOrText s.text s.content with ht0
  by_cases hA : t0 ≠ [] ∧ 50 ≤ (trimWs t0).length
  · by_cases hB : hasSubstr (toLowerL text) ((toLowerL t0).take 50) = true
    · rw [if_pos hA, if_pos hB]
      have hC : ¬(t0 = [] ∨ (trimWs t0).length < 50) := by
        push_neg
        exact ⟨hA.1, by omega⟩
      rw [if_neg hC, if_neg hC]
      exact Or.inl ⟨t0, rfl, hB, hA.2⟩
    · rw [if_pos hA, if_neg hB]
      rw [if_pos (Or.inl rfl : ([] : List Char) = [] ∨ (trimWs ([] : List Char)).length < 50)]
      split_ifs with hD
      · exact Or.inr (Or.inr ⟨min 500 text.length, Or.inr rfl⟩)
      · exact Or.inr (Or.inl ⟨_, _, rfl⟩)
  · rw [if_neg hA]
    have hC : t0 = [] ∨ (trimWs t0).length < 50 := by
      rcases not_and_or.mp hA with h | h
      · exact Or.inl (not_not.mp h)
      · exact Or.inr (by omega)
    rw [if_pos hC]
    split_ifs with hD
    · exact Or.inr (Or.inr ⟨min 500 text.length, Or.inr rfl⟩)
    · exact Or.inr (Or.inl ⟨_, _, rfl⟩)

theorem mem_mapIdx_exists {α β : Type} (l : List α) (f : Nat → α → β) (y : β)
    (h : y ∈ l.mapIdx f) : ∃ i a, a ∈ l ∧ y = f i a := by
  rw [List.mapIdx_eq_enum_map, List.mem_map] at h
  obtain ⟨⟨i, a⟩, hmem, heq⟩ := h
  obtain ⟨hi, ha⟩ := List.mem_enum hmem
  refine ⟨i, a, ?_, heq.symm⟩
  rw [ha]
  exact List.getElem_mem hi

/-- C2 amended: every segment emitted by `segmentContent` is derived
from the input text — it is the trim of a proposal whose own (pre-trim)
first 50 lowercased characters occur in the input, or a contiguous
word-window re-extraction of the input, or a leading-prefix fallback.
(The original claim's stronger reading — that the emitted text carries
no content absent from the source and that its own leading span is
verified — fails: only the proposal's first 50 characters are checked;
see the counterexample.) -/
theorem segmentContent_text_derived :
    ∀ (apiKey : Bool) (text : List Char) (context : String) (j : SegJson)
      (segs : List Segment) (s : Segment),
      segmentContent apiKey text context (some j) = .ok segs →
      s ∈ segs → derivedFrom text s.text := by
  intro apiKey text context j segs s hok hmem
  unfold segmentContent at hok
  dsimp only at hok
  split_ifs at hok
  · rw [Except.ok.injEq] at hok
    subst hok
    rcases List.mem_singleton.mp hmem with rfl
    exact Or.inr (Or.inr ⟨2000, Or.inl rfl⟩)
  · rw [Except.ok.injEq] at hok
    subst hok
    obtain ⟨i, raw, _, hs⟩ := mem_mapIdx_exists _ _ _ hmem
    rw [hs]
    exact enrichSeg_derived text (extractSegs j).length i raw

/-- C2 witness: the amended theorem at a concrete input whose judgment
proposes no segments (fallback path). -/
theorem segmentContent_text_derived_witness :
    derivedFrom ("alpha beta gamma".toList)
      (({ id := "segment-1", title := "ctx",
          text := ("alpha beta gamma".toList).take 2000,
          visualizationType := "other", priority := 1,
          wordCount := min (wordCountJs ("alpha beta gamma".toList)) 2000
          : Segment }).text) :=
  segmentContent_text_derived true ("alpha beta gamma".toList) "ctx" (.arr [])
    _ _ rfl (List.mem_singleton.mpr rfl)

/-- Concrete input for the C2 counterexample: the letter b, a space, 49
copies of the letter a, then " end"; it contains no z. -/
def ceInput : List Char := 'b' :: ' ' :: (List.replicate 49 'a' ++ " end".toList)

/-- Proposed segment text: a leading space, 49 copies of a, then z.  Its
first 50 characters (space plus the 49 a's) occur in `ceInput`, but the
51st character z does not. -/
def ceProposal : List Char := ' ' :: (List.replicate 49 'a' ++ ['z'])

def ceRaw : RawSeg := { text := some ceProposal }

/-- The segment `segmentContent` emits for `ceRaw` on `ceInput`. -/
def ceSeg : Segment :=
  { id := "segment-1", title := "Segment 1",
    text := List.replicate 49 'a' ++ ['z'],
    visualizationType := "other", priority := 1, wordCount := 1 }

/-- C2 counterexample: the emitted segment's text contains the character
z, which is absent from the input, and satisfies none of the claimed
derivations — its own leading 50 characters do not occur in the input
(the verification checked the proposal before trimming, and only its
first 50 characters), it is not a word-window re-extraction, and it is
not a prefix fallback.  So an emitted segment can carry content absent
from the source. -/
theorem segmenter_emits_unverified_tail :
    segmentContent true ceInput "" (some (.arr [ceRaw])) = .ok [ceSeg]
    ∧ 'z' ∈ ceSeg.text
    ∧ 'z' ∉ ceInput
    ∧ ¬ claimDerived ceInput ceSeg.text := by
  refine ⟨by rfl, by decide, by decide, ?_⟩
  intro h
  have hz : 'z' ∈ ceSeg.text := by decide
  rcases h with h | ⟨a, b, h⟩ | ⟨n, h | h⟩
  · exact absurd h (by decide)
  · rw [h] at hz
    rcases mem_joinSpace (mem_trimWs hz) with h2 | ⟨w, hw, hcw⟩
    · exact absurd h2 (by decide)
    · have hw2 : w ∈ jsSplitWs ceInput :=
        List.mem_of_mem_drop (List.mem_of_mem_take hw)
      rcases splitWsGo_mem_chars ceInput false [] w 'z' hw2 hcw with h3 | ⟨h4, _⟩
      · simp at h3
      · exact absurd h4 (by decide)
  · rw [h] at hz
    exact absurd (List.mem_of_mem_take hz) (by decide)
  · rw [h] at hz
    exact absurd (List.mem_of_mem_take (mem_trimWs hz)) (by decide)

/-- C7 counterexample: when the judgment output cannot be parsed as JSON
(or the call throws), `segmentContent` raises the
"Failed to segment content" error instead of returning the fallback
segment, so the pipeline does block in that case. -/
theorem segmenter_raises_on_unparseable :
    segmentContent true
      ("The pipeline must never block on empty segmentation output".toList)
      "" none = .error .judgmentFailed := rfl

/-- C7 amended: when the judgment output parses but yields zero usable
segments, `segmentContent` returns exactly one fallback segment covering
the first 2000 characters of the input; when the output is unparseable
(or the call throws), it raises the "Failed to segment content" error
instead. -/
theorem segmentContent_zero_segments :
    (∀ (text : List Char) (context : String) (j : SegJson),
        (trimWs text).isEmpty = false →
        extractSegs j = [] →
        segmentContent true text context (some j)
          = .ok [{ id := "segment-1",
                   title := jsOrStr (some context) none "Content Analysis",
                   text := text.take 2000,
                   visualizationType := "other",
                   priority := 1,
                   wordCount := min (wordCountJs text) 2000 }])
    ∧ (∀ (text : List Char) (context : String),
        (trimWs text).isEmpty = false →
        segmentContent true text context none = .error .judgmentFailed) := by
  constructor
  · intro text context j hne hj
    simp [segmentContent, hne, hj]
  · intro text context hne
    simp [segmentContent, hne]

/-- C7 witness: the amended theorem's fallback branch at a concrete
two-word text with an object judgment containing no array field. -/
theorem segmentContent_zero_segments_witness :
    segmentContent true ("gamma delta".toList) "Ctx" (some (.obj []))
      = .ok [{ id := "segment-1",
               title := jsOrStr (some "Ctx") none "Content Analysis",
               text := ("gamma delta".toList).take 2000,
               visualizationType := "other",
               priority := 1,
               wordCount := min (wordCountJs ("gamma delta".toList)) 2000 }] :=
  segmentContent_zero_segments.1 ("gamma delta".toList) "Ctx" (.obj [])
    (by decide) rfl

/-! ## Executor retry policy (src/server/agent/executor.js lines
111-113, 291-302, 317-332)

`processSectionVisual(planItem, retryCount)` re-runs itself on a
`RateLimitError` while `retryCount < maxRetries = 3`, sleeping
`error.retryAfter || (retryCount + 1) * 5` seconds first.  The body's
outcome at each attempt is summarised by `AttemptOutcome`: `success`
(the section completed, possibly emitting artifacts), `rateLimited r`
(a RateLimitError escaped, with the advertised Retry-After when
present — 0 is falsy in JavaScript and falls back to the computed
delay), `failure` (any other error).  `attemptFrom outcomes left k`
runs the attempt with `retryCount = k` and `left` retries remaining. -/

inductive AttemptOutcome
  | success
  | rateLimited (retryAfter : Option Nat)
  | failure
  deriving DecidableEq, Repr

structure RetryResult where
  ok : Bool
  attempts : Nat
  delays : List Nat
  deriving DecidableEq, Repr

def attemptFrom (outcomes : Nat → AttemptOutcome) : Nat → Nat → RetryResult
  | 0, k =>
    match outcomes k with
    | .success => ⟨true, 1, []⟩
    | .failure => ⟨false, 1, []⟩
    | .rateLimited _ => ⟨false, 1, []⟩
  | left + 1, k =>
    match outcomes k with
    | .success => ⟨true, 1, []⟩
    | .failure => ⟨false, 1, []⟩
    | .rateLimited r =>
      let rest := attemptFrom outcomes left (k + 1)
      ⟨rest.ok, rest.attempts + 1, jsOrNat r ((k + 1) * 5) :: rest.delays⟩

/-- A full `processSectionVisual` run starting at `retryCount = 0` with
the cap `maxRetries = 3`. -/
def processSectionVisual (outcomes : Nat → AttemptOutcome) : RetryResult :=
  attemptFrom outcomes 3 0

inductive RunEvent
  | diagram
  | sectionError
  deriving DecidableEq, Repr

/-- The terminal event one section contributes: its own `.catch` turns a
final rejection into a section-error callback (executor.js lines
317-331), never a thrown error. -/
def eventOf (outcomes : Nat → AttemptOutcome) : RunEvent :=
  if (processSectionVisual outcomes).ok then .diagram else .sectionError

/-- A priority batch: every section is mapped to its own event; the
scheduler's join (`Promise.all`) sees only resolved promises. -/
def executeBatch (sections : List (Nat → AttemptOutcome)) : List RunEvent :=
  sections.map eventOf

theorem attemptFrom_attempts_le :
    ∀ (left k : Nat) (outcomes : Nat → AttemptOutcome),
      (attemptFrom outcomes left k).attempts ≤ left + 1 := by
  intro left
  induction left with
  | zero =>
    intro k outcomes
    rw [attemptFrom]
    cases outcomes k <;> simp
  | succ n ih =>
    intro k outcomes
    rw [attemptFrom]
    cases outcomes k <;> simp
    exact ih (k + 1) outcomes

/-- C6: the executor's rate-limit retry policy.  (1) A unit is attempted
at most 1 + 3 times.  (2) When every attempt is rate limited, the unit
makes exactly 4 attempts with delays `retryAfter || 5·attempt-number`
(in particular [5, 10, 15] when the service advertises no interval) and
ends unsuccessfully.  (3) A batch maps each section to its own terminal
event, so one section's outcome never changes its siblings' events.
(4) A unit whose retries are exhausted contributes a section-error
event, not an abort. -/
theorem executor_retry_policy :
    (∀ outcomes : Nat → AttemptOutcome,
      (processSectionVisual outcomes).attempts ≤ 4)
    ∧ (∀ (rs : Nat → Option Nat) (outcomes : Nat → AttemptOutcome),
        (∀ k, k ≤ 3 → outcomes k = .rateLimited (rs k)) →
        processSectionVisual outcomes
          = ⟨false, 4, [jsOrNat (rs 0) 5, jsOrNat (rs 1) 10, jsOrNat (rs 2) 15]⟩)
    ∧ (∀ (pre post : List (Nat → AttemptOutcome)) (o : Nat → AttemptOutcome),
        executeBatch (pre ++ o :: post)
          = executeBatch pre ++ eventOf o :: executeBatch post)
    ∧ (∀ outcomes : Nat → AttemptOutcome,
        (∀ k, k ≤ 3 → outcomes k = .rateLimited none) →
        eventOf outcomes = .sectionError) := by
  refine ⟨?_, ?_, ?_, ?_⟩
  · intro outcomes
    exact attemptFrom_attempts_le 3 0 outcomes
  · intro rs outcomes h
    have h0 := h 0 (by omega)
    have h1 := h 1 (by omega)
    have h2 := h 2 (by omega)
    have h3 := h 3 (by omega)
    simp [processSectionVisual, attemptFrom, h0, h1, h2, h3]
  · intro pre post o
    simp [executeBatch]
  · intro outcomes h
    have h0 := h 0 (by omega)
    have h1 := h 1 (by omega)
    have h2 := h 2 (by omega)
    have h3 := h 3 (by omega)
    simp [eventOf, processSectionVisual, attemptFrom, h0, h1, h2, h3]

/-- C6 witness: a unit that is rate limited on every attempt with no
advertised interval makes 4 attempts with the increasing delays 5, 10,
15 seconds and fails. -/
theorem executor_retry_policy_witness :
    processSectionVisual (fun _ => .rateLimited none) = ⟨false, 4, [5, 10, 15]⟩ :=
  executor_retry_policy.2.1 (fun _ => none) (fun _ => .rateLimited none)
    (fun _ _ => rfl)

/-! ## Analyze route (src/server/routes/analyze.js)

The SSE handler embeds as a function from the planning stage and the
sequence of executor callbacks to the emitted event list.  `createPlan`
itself never rejects in the v2.1 planner (it falls back), but the route
also guards a thrown plan (quota branch and the outer catch), both
producing a single error event; the executor resolves every section's
promise through its own `.catch`, so `execute` contributes only
callback-driven events. -/

inductive RouteEvent
  | error
  | noContent
  | planEvt
  | diagram
  | sectionError
  | complete
  deriving DecidableEq, Repr

/-- One `onDiagram(sectionId, svg, heading, error)` callback: the route
emits `section_error` when `error` is set, else `diagram` when `svg` is
set, else nothing. -/
structure CallbackCall where
  svg : Option (List Char)
  errMsg : Option String
  deriving DecidableEq, Repr

def eventOfCall (c : CallbackCall) : Option RouteEvent :=
  match c.errMsg with
  | some _ => some .sectionError
  | none =>
    match c.svg with
    | some _ => some .diagram
    | none => none

/-- How the run reached the execution step: invalid body, a thrown
`createPlan`, or a plan result `{hasVisualizableContent, sections}`. -/
inductive PlanStage
  | invalidPaper
  | planThrow
  | planned (hasVisualizableContent : Bool) (sections : List String)
  deriving DecidableEq, Repr

/-- src/server/routes/analyze.js lines 13-96. -/
def analyzeRoute : PlanStage → List CallbackCall → List RouteEvent
  | .invalidPaper, _ => [.error]
  | .planThrow, _ => [.error]
  | .planned hasVis plan, calls =>
    if !hasVis || plan.isEmpty then [.noContent, .complete]
    else .planEvt :: calls.filterMap eventOfCall ++ [.complete]

theorem eventOfCall_cases {c : CallbackCall} {e : RouteEvent}
    (h : eventOfCall c = some e) : e = .sectionError ∨ e = .diagram := by
  unfold eventOfCall at h
  cases hm : c.errMsg with
  | some m =>
    rw [hm] at h
    cases h
    exact Or.inl rfl
  | none =>
    rw [hm] at h
    cases hs : c.svg with
    | some s => rw [hs] at h; cases h; exact Or.inr rfl
    | none => rw [hs] at h; cases h

/-- C4: when the plan admits at least one section, the plan event comes
first, the complete event is last and occurs exactly once, and no
no-content event appears; when the plan is not admitted (or empty), the
route emits exactly the pair no-content then complete — one no-content,
no plan or diagram event, complete last. -/
theorem analyze_event_order :
    (∀ (plan : List String) (calls : List CallbackCall),
      plan ≠ [] →
      (analyzeRoute (.planned true plan) calls).head? = some .planEvt
      ∧ (analyzeRoute (.planned true plan) calls).getLast? = some .complete
      ∧ (analyzeRoute (.planned true plan) calls).count .complete = 1
      ∧ .noContent ∉ analyzeRoute (.planned true plan) calls)
    ∧ (∀ (hasVis : Bool) (plan : List String) (calls : List CallbackCall),
      hasVis = false ∨ plan = [] →
      analyzeRoute (.planned hasVis plan) calls = [.noContent, .complete]) := by
  constructor
  · intro plan calls hne
    have hrun : analyzeRoute (.planned true plan) calls
        = .planEvt :: calls.filterMap eventOfCall ++ [.complete] := by
      unfold analyzeRoute
      simp [List.isEmpty_iff, hne]
    have hfm : ∀ e ∈ calls.filterMap eventOfCall,
        e = RouteEvent.sectionError ∨ e = RouteEvent.diagram := by
      intro e he
      obtain ⟨c, _, hc⟩ := List.mem_filterMap.mp he
      exact eventOfCall_cases hc
    refine ⟨?_, ?_, ?_, ?_⟩
    · rw [hrun]
      rfl
    · rw [hrun]
      rw [show RouteEvent.planEvt :: calls.filterMap eventOfCall ++ [RouteEvent.complete]
          = (RouteEvent.planEvt :: calls.filterMap eventOfCall) ++ [RouteEvent.complete]
        from rfl]
      exact List.getLast?_concat _
    · rw [hrun]
      have hz : (calls.filterMap eventOfCall).count RouteEvent.complete = 0 := by
        rw [List.count_eq_zero]
        intro hmem
        rcases hfm _ hmem with h | h <;> cases h
      simp [List.count_cons, List.count_append, hz]
    · rw [hrun]
      intro hmem
      simp only [List.mem_cons, List.mem_append, List.mem_singleton] at hmem
      rcases hmem with (h | h) | (h | h)
      · cases h
      · rcases hfm _ h with h2 | h2 <;> cases h2
      · cases h
      · cases h
  · intro hasVis plan calls h
    rcases h with h | h
    · subst h
      simp [analyzeRoute]
    · subst h
      simp [analyzeRoute]

/-- C4 witness: an admitted one-section plan with no callbacks emits
plan first and complete last, exactly once, with no no-content event. -/
theorem analyze_event_order_witness :
    (analyzeRoute (.planned true ["section-0"]) []).head? = some .planEvt
    ∧ (analyzeRoute (.planned true ["section-0"]) []).getLast? = some .complete
    ∧ (analyzeRoute (.planned true ["section-0"]) []).count .complete = 1
    ∧ .noContent ∉ analyzeRoute (.planned true ["section-0"]) [] :=
  analyze_event_order.1 ["section-0"] [] (by decide)

/-! ## Executor scheduling and the global visual quota
(src/server/agent/executor.js)

`execute` runs `processSectionVisual` for each plan item under
`ConcurrencyLimiter(2)`; the shared counter `totalVisualsGenerated` is
read before each generation (lines 117, 179, 205, 309, 342) and
incremented only after the awaited
`createVisualRequest` → `pollUntilComplete` → `downloadAndServeSVG`
chain succeeds (lines 236, 268).  The JavaScript event loop interleaves
the concurrently running sections at each `await`, so the model is a
small-step machine: a `SecTask` is one section's remaining generation
attempts (`rem`, at most 2 segments plus the fallback; evaluator
rejections only lower it), and `fly` is an in-flight awaited generation.
A `step i` on a non-flying task with `rem > 0` is the quota check: it
either skips the section (counter exhausted, lines 179/205 break and the
skip outcomes) or submits (`createVisualRequest`, counted in `submits`);
a `step i` on a flying task is the awaited chain completing: the
artifact is emitted and the counter incremented.  `start` admits a
queued section when a limiter slot is free.  No transition consults a
task's `text`: the executor has no fingerprint cache in front of
`createVisualRequest`. -/

structure SecTask where
  text : List Char
  rem : Nat
  fly : Bool
  deriving DecidableEq, Repr

def MAX_TOTAL_VISUALS : Nat := 2

def maxConcurrent : Nat := 2

structure ExecState where
  counter : Nat
  submits : Nat
  active : List SecTask
  queued : List SecTask
  deriving DecidableEq, Repr

/-- One scheduler step on the `i`-th active section; returns the new
active list, the counter increment and the submit increment. -/
def actOn (counter : Nat) : Nat → List SecTask → List SecTask × Nat × Nat
  | _, [] => ([], 0, 0)
  | 0, t :: ts =>
    if t.fly then
      if t.rem ≤ 1 then (ts, 1, 0)
      else ({ t with fly := false, rem := t.rem - 1 } :: ts, 1, 0)
    else if t.rem = 0 then (ts, 0, 0)
    else if MAX_TOTAL_VISUALS ≤ counter then (ts, 0, 0)
    else ({ t with fly := true } :: ts, 0, 1)
  | i + 1, t :: ts =>
    let r := actOn counter i ts
    (t :: r.1, r.2)

inductive ExecAction
  | start
  | step (i : Nat)
  deriving DecidableEq, Repr

def doStep (s : ExecState) : ExecAction → ExecState
  | .start =>
    match s.queued with
    | [] => s
    | t :: rest =>
      if s.active.length < maxConcurrent then
        { s with active := s.active ++ [t], queued := rest }
      else s
  | .step i =>
    let r := actOn s.counter i s.active
    { s with active := r.1, counter := s.counter + r.2.1,
             submits := s.submits + r.2.2 }

/-- A whole run: fold an interleaving schedule over the initial state. -/
def execRun (queued : List SecTask) (acts : List ExecAction) : ExecState :=
  acts.foldl doStep ⟨0, 0, [], queued⟩

/-- Number of in-flight generations among the active sections. -/
def flies (l : List SecTask) : Nat := (l.filter (fun t => t.fly)).length

theorem flies_cons (t : SecTask) (l : List SecTask) :
    flies (t :: l) = (if t.fly then 1 else 0) + flies l := by
  unfold flies
  by_cases h : t.fly
  · simp [List.filter_cons, h, Nat.add_comm]
  · simp [List.filter_cons, h]

theorem flies_le_length (l : List SecTask) : flies l ≤ l.length :=
  List.length_filter_le _ l

theorem actOn_bound :
    ∀ (i : Nat) (ts : List SecTask) (counter oL oF : Nat),
      oF ≤ oL →
      ts.length + oL ≤ maxConcurrent →
      counter + flies ts + oF ≤ MAX_TOTAL_VISUALS + 1 →
      (actOn counter i ts).1.length + oL ≤ maxConcurrent
      ∧ counter + (actOn counter i ts).2.1 + flies (actOn counter i ts).1 + oF
          ≤ MAX_TOTAL_VISUALS + 1 := by
  intro i
  induction i with
  | zero =>
    intro ts counter oL oF hoo hlen hinv
    cases ts with
    | nil => exact ⟨by simpa [actOn] using hlen, by simpa [actOn] using hinv⟩
    | cons t ts =>
      rw [flies_cons] at hinv
      simp only [List.length_cons] at hlen
      by_cases hf : t.fly = true
      · rw [hf, if_pos rfl] at hinv
        by_cases hr : t.rem ≤ 1
        · simp only [actOn, hf, if_true, hr, if_pos]
          constructor
          · omega
          · have := flies_le_length ts
            omega
        · simp only [actOn, hf, if_true, hr, if_false]
          rw [flies_cons]
          simp only [List.length_cons]
          constructor
          · omega
          · simp only [if_neg (by simp : ¬(false = true))]
            omega
      · rw [Bool.not_eq_true] at hf
        rw [hf] at hinv
        simp only [if_neg (by simp : ¬(false = true)), Nat.zero_add] at hinv
        by_cases hr : t.rem = 0
        · simp only [actOn, hf, Bool.false_eq_true, if_false, hr, if_pos]
          exact ⟨by omega, by omega⟩
        · by_cases hc : MAX_TOTAL_VISUALS ≤ counter
          · simp only [actOn, hf, Bool.false_eq_true, if_false, hr, if_neg hr,
              hc, if_pos]
            exact ⟨by omega, by omega⟩
          · simp only [actOn, hf, Bool.false_eq_true, if_false, if_neg hr,
              if_neg hc]
            rw [flies_cons]
            simp only [List.length_cons]
            have h1 : flies ts ≤ ts.length := flies_le_length ts
            refine ⟨by omega, ?_⟩
            simp only [if_true]
            unfold MAX_TOTAL_VISUALS at hc ⊢
            unfold maxConcurrent at hlen
            omega
  | succ n ih =>
    intro ts counter oL oF hoo hlen hinv
    cases ts with
    | nil => exact ⟨by simpa [actOn] using hlen, by simpa [actOn] using hinv⟩
    | cons t ts =>
      rw [flies_cons] at hinv
      simp only [List.length_cons] at hlen
      have hstep := ih ts counter (oL + 1) (oF + (if t.fly then 1 else 0))
        (by split_ifs <;> omega) (by omega) (by omega)
      simp only [actOn]
      rw [flies_cons]
      simp only [List.length_cons]
      obtain ⟨ha, hb⟩ := hstep
      exact ⟨by omega, by omega⟩

/-- The run invariant: the limiter bounds the active sections, queued
sections have nothing in flight, and the counter plus in-flight
generations never exceed `MAX_TOTAL_VISUALS + 1`. -/
def ExecInv (s : ExecState) : Prop :=
  s.active.length ≤ maxConcurrent
  ∧ s.counter + flies s.active ≤ MAX_TOTAL_VISUALS + 1
  ∧ ∀ t ∈ s.queued, t.fly = false

theorem doStep_inv {s : ExecState} (h : ExecInv s) (a : ExecAction) :
    ExecInv (doStep s a) := by
  obtain ⟨h1, h2, h3⟩ := h
  cases a with
  | start =>
    cases hq : s.queued with
    | nil => simpa [doStep, hq] using ⟨h1, h2, h3⟩
    | cons t rest =>
      by_cases hlt : s.active.length < maxConcurrent
      · have hfly : t.fly = false := h3 t (by rw [hq]; exact List.mem_cons_self t rest)
        refine ⟨?_, ?_, ?_⟩
        · simp [doStep, hq, hlt]
          omega
        · have hfl : flies (s.active ++ [t]) = flies s.active := by
            unfold flies
            rw [List.filter_append]
            simp [hfly]
          simp [doStep, hq, hlt, hfl, h2]
        · intro u hu
          simp only [doStep, hq, if_pos hlt] at hu
          exact h3 u (by rw [hq]; exact List.mem_cons_of_mem t hu)
      · simpa [doStep, hq, hlt] using ⟨h1, h2, h3⟩
  | step i =>
    have hb := actOn_bound i s.active s.counter 0 0 (le_refl 0)
      (by omega) (by omega)
    exact ⟨by simpa using hb.1, by have := hb.2; simpa using this, h3⟩

theorem foldl_inv {s : ExecState} (acts : List ExecAction) (h : ExecInv s) :
    ExecInv (acts.foldl doStep s) := by
  induction acts generalizing s with
  | nil => simpa using h
  | cons a rest ih => exact ih (doStep_inv h a)

/-- C1 counterexample: an interleaving of two admitted sections (the
first with two segments, the second with one) in which both pass the
quota check before either increments the counter; the run emits three
artifacts, exceeding `MAX_TOTAL_VISUALS = 2`.  Schedule: both sections
start, both submit (checks read counter 0), section 1 completes
(counter 1) and submits its second segment (check reads 1 < 2), section
2 completes (counter 2), section 1's second segment completes
(counter 3). -/
theorem executor_quota_race :
    MAX_TOTAL_VISUALS = 2
    ∧ (execRun [⟨"Methods".toList, 2, false⟩, ⟨"Results".toList, 1, false⟩]
        [.start, .start, .step 0, .step 1, .step 0, .step 0, .step 1, .step 0]).counter
      = 3 := by
  refine ⟨rfl, by decide⟩

/-- C1 amended: the quota check before each generation and the
post-success increment bound the artifact count by
`MAX_TOTAL_VISUALS + (pool size − 1) = 3` for every interleaving under
the concurrency-2 pool — not by `MAX_TOTAL_VISUALS = 2` as claimed,
because the increment happens after awaited calls: each of the two
concurrently running sections can pass the check before either
increments (sequential schedules do respect the bound 2). -/
theorem executor_quota_bound :
    ∀ (queued : List SecTask) (acts : List ExecAction),
      (∀ t ∈ queued, t.fly = false) →
      (execRun queued acts).counter ≤ MAX_TOTAL_VISUALS + 1 := by
  intro queued acts hq
  have hinv : ExecInv (⟨0, 0, [], queued⟩ : ExecState) := by
    refine ⟨by simp [maxConcurrent], by simp [flies, MAX_TOTAL_VISUALS], hq⟩
  have := foldl_inv (s := ⟨0, 0, [], queued⟩) acts hinv
  have h2 := this.2.1
  unfold execRun
  omega

/-- C1 witness: the amended bound at a concrete one-section run. -/
theorem executor_quota_bound_witness :
    (execRun [⟨"Introduction".toList, 2, false⟩] [.start, .step 0, .step 0]).counter
      ≤ MAX_TOTAL_VISUALS + 1 :=
  executor_quota_bound [⟨"Introduction".toList, 2, false⟩]
    [.start, .step 0, .step 0] (by decide)

/-! ## Fingerprint caches (src/extension/background.js and the Cache
manager)

The extension background's GENERATE handler keys an in-memory map by a
32-bit text hash (`hashStep` mirrors
`hash = ((hash << 5) - hash) + charCode; hash = hash & hash`, the wrap
to a signed 32-bit integer; the base-36 rendering of the key is
injective, so the integer itself serves as the key).  On a hit the
server is not called.  This cache fronts the manual-mode `/generate`
endpoint only; nothing consults a text-keyed cache inside the analysis
run's executor. -/

def toInt32 (x : Int) : Int := (x + 2 ^ 31) % 2 ^ 32 - 2 ^ 31

def hashStep (h : Int) (c : Nat) : Int := toInt32 (toInt32 (h * 32) - h + c)

def hashText (t : List Char) : Int := t.foldl (fun h c => hashStep h c.toNat) 0

def bgLookup (cache : List (Int × List Char)) (k : Int) : Option (List Char) :=
  match cache with
  | [] => none
  | (k0, v) :: rest => if k0 == k then some v else bgLookup rest k

inductive BgResponse
  | svg (s : List Char)
  | err
  deriving DecidableEq, Repr

def MAX_CACHE_SIZE : Nat := 100

/-- background.js lines 38-117: `handleGenerate` for the single-segment
response shape.  `serverResponse` is what the `/generate` call would
return; the result is the response sent back, the cache afterwards, and
the number of server calls made (0 on a cache hit). -/
def handleGenerate (serverResponse : BgResponse)
    (cache : List (Int × List Char)) (text : List Char) :
    BgResponse × List (Int × List Char) × Nat :=
  let key := hashText text
  match bgLookup cache key with
  | some s => (.svg s, cache, 0)
  | none =>
    match serverResponse with
    | .svg s =>
      let c2 := if MAX_CACHE_SIZE ≤ cache.length then cache.drop 1 else cache
      (.svg s, c2 ++ [(key, s)], 1)
    | .err => (.err, cache, 1)

/-- C8 counterexample: in the analysis run, two admitted sections
carrying the identical text each issue their own submit call — the
executor consults no fingerprint cache before `createVisualRequest`, so
submitting the same text twice within the run issues two submit calls,
not at most one. -/
theorem executor_no_submit_cache :
    (execRun [⟨"Same section text".toList, 1, false⟩,
              ⟨"Same section text".toList, 1, false⟩]
      [.start, .step 0, .step 0, .start, .step 0, .step 0]).submits = 2
    ∧ [⟨"Same section text".toList, 1, false⟩,
       ⟨"Same section text".toList, 1, false⟩].map (fun t : SecTask => t.text)
      = List.replicate 2 ("Same section text".toList) := by
  refine ⟨by decide, by decide⟩

/-- C8 amended: text-fingerprint idempotence holds only where a cache
actually sits: the extension background's manual-mode GENERATE handler
(hash-of-text key; the second identical request is served from the cache
with no server call) and the downloader's per-URL cache (a second fetch
of the same artifact URL within the 30-minute lifetime performs no
download).  The analysis-run executor has no cache in front of submit
(see the counterexample). -/
theorem fingerprint_cache_idempotent :
    (∀ (text svg1 : List Char) (r2 : BgResponse),
      (handleGenerate (.svg svg1) [] text).2.2 = 1
      ∧ (handleGenerate r2 (handleGenerate (.svg svg1) [] text).2.1 text).2.2 = 0
      ∧ (handleGenerate r2 (handleGenerate (.svg svg1) [] text).2.1 text).1
          = .svg svg1)
    ∧ (∀ (raw raw2 url : List Char) (t1 : Nat) (d : Fin CACHE_TTL),
      (downloadAndServeSVG raw2 (t1 + d.val)
          (downloadAndServeSVG raw t1 [] url).cache url).downloads = 0
      ∧ (downloadAndServeSVG raw2 (t1 + d.val)
          (downloadAndServeSVG raw t1 [] url).cache url).svg = sanitizeSVG raw) := by
  constructor
  · intro text svg1 r2
    refine ⟨rfl, ?_, ?_⟩ <;>
      simp [handleGenerate, bgLookup, MAX_CACHE_SIZE]
  · intro raw raw2 url t1 d
    have hsub : t1 + d.val - t1 = d.val := by omega
    have hlt : t1 + d.val - t1 < CACHE_TTL := by
      rw [hsub]
      exact d.isLt
    constructor <;>
      simp [downloadAndServeSVG, dlLookup, dlSet, dlEvict, hlt]

end PaperLens
